import Mathlib

/-!
Verification of the `protoc-gen-gin` code generator (repository `go-kenka/ginpb`).

The Go source under `internal/gen` (file `gin.go`) plus the runtime helpers
(`metadata/metadata.go`, `binding/bind.go`) are shallowly embedded here.
Strings are modelled as `List Char`; Go's `os.Exit(2)` is modelled as
`Except.error 2`; text printed to standard error is modelled by the structured
`Warn` values produced alongside results.  Go's `regexp` uses RE2; the two
regular expressions of the source are fixed patterns, embedded as the
deterministic scanners they denote (derivations in the doc comments).
-/

set_option linter.unusedVariables false

namespace Ginpb

/-- Left curly brace (written via its code point). -/
def lbrace : Char := Char.ofNat 123

/-- Right curly brace (written via its code point). -/
def rbrace : Char := Char.ofNat 125

/-- Double quote character. -/
def dquote : Char := Char.ofNat 34

/-- Backquote character (used by Go struct tags). -/
def btick : Char := Char.ofNat 96

/-- ASCII lower-case test, from `isASCIILower` in gin.go. -/
def isASCIILower (c : Char) : Bool := 'a' ≤ c && c ≤ 'z'

/-- ASCII digit test, from `isASCIIDigit` in gin.go. -/
def isASCIIDigit (c : Char) : Bool := '0' ≤ c && c ≤ '9'

/-- White space as accepted by Go's `strings.TrimSpace` (ASCII part of
`unicode.IsSpace`: space, \t, \n, \v, \f, \r). -/
def isGoSpace (c : Char) : Bool :=
  c == ' ' || c == '\t' || c == '\n' || c == Char.ofNat 11 || c == Char.ofNat 12 || c == '\r'

/-- White space matched by `\s` in Go's RE2 regexp: [\t\n\f\r ]. -/
def isREspace (c : Char) : Bool :=
  c == '\t' || c == '\n' || c == Char.ofNat 12 || c == '\r' || c == ' '

/-- Go `strings.TrimSpace` (over the ASCII space class). -/
def trimSpace (s : List Char) : List Char :=
  ((s.dropWhile isGoSpace).reverse.dropWhile isGoSpace).reverse

/-- Go `strings.Split(s, sep)` for a single-character separator. -/
def splitOnChar (c : Char) : List Char → List (List Char)
  | [] => [[]]
  | x :: xs =>
    match splitOnChar c xs with
    | [] => [[]]
    | s :: ss => if x = c then [] :: s :: ss else (x :: s) :: ss

/-- One segment of `transformPath` in gin.go: a segment whose first character
is '{' and last character is '}', or whose first character is ':', becomes
':' followed by the segment stripped of its first and last characters;
other segments are unchanged.  (For the one-character segment ":" the Go
slice `p[1:len(p)-1]` would panic; the embedding returns ":" there.) -/
def transformSeg (p : List Char) : List Char :=
  match p with
  | [] => []
  | a :: rest =>
    if (a = lbrace ∧ (a :: rest).getLastD ' ' = rbrace) ∨ a = ':' then
      ':' :: rest.dropLast
    else a :: rest

/-- `transformPath` in gin.go: split on '/', rewrite each segment, re-join. -/
def transformPath (path : List Char) : List Char :=
  List.intercalate ['/'] ((splitOnChar '/' path).map transformSeg)

/-- The per-segment rewrite as the claim states it (only `{field}` placeholders
are rewritten; every other segment is left unchanged).  This follows the
spec's words, for comparison with `transformSeg` from the source. -/
def claimSegRewrite (p : List Char) : List Char :=
  match p with
  | [] => []
  | a :: rest =>
    if a = lbrace ∧ (a :: rest).getLastD ' ' = rbrace then ':' :: rest.dropLast
    else a :: rest

/-- `transformPath` as the claim describes it, built from `claimSegRewrite`. -/
def claimTransformPath (path : List Char) : List Char :=
  List.intercalate ['/'] ((splitOnChar '/' path).map claimSegRewrite)

/-- Inner loop of `camelCase` in gin.go (index `i` onwards), with explicit
fuel; every recursive call shortens the list, and callers pass the list's
length as fuel, so the fuel never runs out. -/
def camelCaseAux : Nat → List Char → List Char
  | 0, _ => []
  | _ + 1, [] => []
  | fuel + 1, c :: rest =>
    if c == '_' && (match rest with | d :: _ => isASCIILower d | [] => false) then
      camelCaseAux fuel rest
    else if isASCIIDigit c then c :: camelCaseAux fuel rest
    else
      let c1 := if isASCIILower c then Char.ofNat (c.toNat ^^^ 32) else c
      c1 :: rest.takeWhile isASCIILower ++ camelCaseAux fuel (rest.dropWhile isASCIILower)

/-- `camelCase` in gin.go: a leading '_' becomes 'X'; an interior '_' followed
by a lower-case letter is dropped and the letter upper-cased; each word is
capitalised. -/
def camelCase (s : List Char) : List Char :=
  match s with
  | [] => []
  | c :: rest => if c = '_' then 'X' :: camelCaseAux rest.length rest else camelCaseAux (c :: rest).length (c :: rest)

/-- `camelCaseVars` in gin.go: camel-case each dot-separated component. -/
def camelCaseVars (s : List Char) : List Char :=
  List.intercalate ['.'] ((splitOnChar '.' s).map camelCase)

/-- Characters of the name class `[a-z.0-9_\s]` under the `(?i)` flag. -/
def isParamNameChar (c : Char) : Bool :=
  isASCIILower c || ('A' ≤ c && c ≤ 'Z') || isASCIIDigit c || c == '.' || c == '_' || isREspace c

/-- Characters matched by `[^{}]`. -/
def isNonBrace (c : Char) : Bool := c != lbrace && c != rbrace

/-- Go's `regexp.FindAllStringSubmatch` for `(?i){([a-z.0-9_\s]*)=?([^{}]*)}`
(the pattern of `buildPathParams`), as the deterministic scan it denotes:
a match attempt at a '{' takes the maximal run of name-class characters
(group 1), an optional '=', then the maximal run of non-brace characters
(group 2), and must then see '}'.  Group 2 cannot cross a brace, so the
attempt succeeds exactly when the next brace after those runs is '}', and
backtracking cannot rescue a failed attempt; on failure the engine advances
to the next '{' (none can occur inside the runs).  Fuel is the list length;
every recursive call is on a strictly later suffix, so it never runs out. -/
def scanBraceAux : Nat → List Char → List (List Char × List Char)
  | 0, _ => []
  | _ + 1, [] => []
  | fuel + 1, c :: rest =>
    if c = lbrace then
      let g1 := rest.takeWhile isParamNameChar
      match rest.dropWhile isParamNameChar with
      | [] => []
      | d :: r3 =>
        if d = rbrace then (g1, []) :: scanBraceAux fuel r3
        else if d = '=' then
          let g2 := r3.takeWhile isNonBrace
          match r3.dropWhile isNonBrace with
          | [] => []
          | e :: r5 =>
            if e = rbrace then (g1, g2) :: scanBraceAux fuel r5
            else scanBraceAux fuel (e :: r5)
        else if d = lbrace then scanBraceAux fuel (d :: r3)
        else
          let g2 := (d :: r3).takeWhile isNonBrace
          match (d :: r3).dropWhile isNonBrace with
          | [] => []
          | e :: r5 =>
            if e = rbrace then (g1, g2) :: scanBraceAux fuel r5
            else scanBraceAux fuel (e :: r5)
    else scanBraceAux fuel rest

/-- Warnings and errors printed to standard error by the generator. -/
inductive Warn where
  | trailingSlash (path : List Char)
  | bodyDeclared (method path : List Char)
  | bodyNotDeclared (method path : List Char)
  | fieldIsMap (v : List Char)
  | fieldIsList (v : List Char)
  deriving DecidableEq, Repr

/-- The map write `res[name] = v` of `buildPathParams` on an association
list: an existing key keeps its position and gets the new value, a new key
is appended.  (The concrete order stands in for Go's unordered map; the
properties proved below do not depend on it.) -/
def upsert (k : List Char) (v : Option (List Char)) :
    List (List Char × Option (List Char)) → List (List Char × Option (List Char))
  | [] => [(k, v)]
  | (k1, v1) :: t => if k1 == k then (k, v) :: t else (k1, v1) :: upsert k v t

/-- `buildPathParams` in gin.go: warn on a trailing '/', scan the brace
matches, and map each trimmed name to its default value — kept only when
the name has more than one character and group 2 is non-empty. -/
def buildPathParams (path : List Char) :
    List Warn × List (List Char × Option (List Char)) :=
  let ws := if path.getLast? = some '/' then [Warn.trailingSlash path] else []
  let ms := scanBraceAux path.length path
  (ws, ms.foldl (fun acc m =>
    let name := trimSpace m.1
    upsert name (if 1 < name.length ∧ 0 < m.2.length then some m.2 else none) acc) [])

/-- Go's `regexp.FindAllStringSubmatch` for `{([^}]+)}` (the pattern of
`extractPathParams`): at each '{', the maximal non-'}' run must be non-empty
and followed by '}'. -/
def extractAux : Nat → List Char → List (List Char)
  | 0, _ => []
  | _ + 1, [] => []
  | fuel + 1, c :: rest =>
    if c = lbrace then
      let run := rest.takeWhile (fun x => x != rbrace)
      match rest.dropWhile (fun x => x != rbrace) with
      | [] => []
      | _ :: r3 => if run.isEmpty then extractAux fuel rest else run :: extractAux fuel r3
    else extractAux fuel rest

/-- `extractPathParams` in gin.go. -/
def extractPathParams (path : List Char) : List (List Char) :=
  extractAux path.length path

/-- Case-insensitive strip of a literal name (the `(?i)` flag; ASCII folding). -/
def stripNameCI : List Char → List Char → Option (List Char)
  | [], s => some s
  | _ :: _, [] => none
  | n :: ns, c :: cs => if n.toLower = c.toLower then stripNameCI ns cs else none

/-- Length of the match of `(?i){([\s]*name[\s]*)=?([^{}]*)}` starting at the
head of `s` (used by `replacePath` via `FindStringIndex`), or `none`. -/
def matchLenAt (name s : List Char) : Option Nat :=
  match s with
  | [] => none
  | c :: r1 =>
    if c = lbrace then
      match stripNameCI name (r1.dropWhile isREspace) with
      | none => none
      | some r3 =>
        let r4 := r3.dropWhile isREspace
        let r5 := match r4 with
                  | e :: t => if e = '=' then t.dropWhile isNonBrace else r4.dropWhile isNonBrace
                  | [] => []
        match r5 with
        | e :: _ => if e = rbrace then some (s.length - r5.length + 1) else none
        | [] => none
    else none

/-- Position and length of the first match (Go `FindStringIndex`). -/
def findMatchIdx (name : List Char) : List Char → Option (Nat × Nat)
  | [] => none
  | c :: rest =>
    match matchLenAt name (c :: rest) with
    | some len => some (0, len)
    | none => (findMatchIdx name rest).map (fun p => (p.1 + 1, p.2))

/-- `strings.ReplaceAll(value, "*", ".*")`. -/
def starExpand (v : List Char) : List Char :=
  v.flatMap (fun c => if c = '*' then ['.', '*'] else [c])

/-- `replacePath` in gin.go: the first `{name=glob}` match (name compared
case-insensitively) is replaced by `name:glob`, with '*' in the glob
expanded to '.*'.  (The Go code interpolates `name` verbatim into the
pattern; of the name-class characters only '.' is a metacharacter, which
this embedding matches literally.) -/
def replacePath (name value path : List Char) : List Char :=
  match findMatchIdx name path with
  | none => path
  | some (i, len) => path.take i ++ name ++ ':' :: starExpand value ++ path.drop (i + len)

/-- Protobuf field kinds as far as `buildMethodDesc` distinguishes them. -/
inductive FKind where
  | scalarK
  | messageK
  | groupK
  deriving DecidableEq, Repr

/-- A protobuf field descriptor as consulted by `buildMethodDesc`: its name,
`IsMap()`, `IsList()`, `Kind()`, and — for message/group kinds — the field
list of its message type. -/
inductive FieldD where
  | mk (name : List Char) (isMap isList : Bool) (kind : FKind) (children : List FieldD)

def FieldD.name : FieldD → List Char
  | .mk n _ _ _ _ => n

def FieldD.isMap : FieldD → Bool
  | .mk _ m _ _ _ => m

def FieldD.isList : FieldD → Bool
  | .mk _ _ l _ _ => l

def FieldD.kind : FieldD → FKind
  | .mk _ _ _ k _ => k

def FieldD.children : FieldD → List FieldD
  | .mk _ _ _ _ c => c

/-- The component preprocessing in `buildMethodDesc`'s walk: everything
before the first ':' when the component contains one (Go's
`strings.Split(field, ":")[0]`). -/
def colonStrip (f : List Char) : List Char :=
  if f.contains ':' then f.takeWhile (fun c => c != ':') else f

/-- The per-parameter loop body of `buildMethodDesc`: walk the dot-separated
components of parameter `v` through the field tree.  `Except.error 2` models
the ERROR print to stderr followed by `os.Exit(2)` when a component cannot
be found; the returned list models the WARN prints for map and list fields.
A map, list or scalar field does not descend (`fields` keeps its previous
value), exactly as in the source. -/
def walkParam (v : List Char) : List FieldD → List (List Char) → Except Nat (List Warn)
  | _, [] => Except.ok []
  | fs, f :: rest =>
    if trimSpace f = [] then walkParam v fs rest
    else
      match fs.find? (fun fd => fd.name == colonStrip f) with
      | none => Except.error 2
      | some fd =>
        if fd.isMap then (walkParam v fs rest).map (fun ws => Warn.fieldIsMap v :: ws)
        else if fd.isList then (walkParam v fs rest).map (fun ws => Warn.fieldIsList v :: ws)
        else if fd.kind = FKind.messageK ∨ fd.kind = FKind.groupK then walkParam v fd.children rest
        else walkParam v fs rest

/-- The data `parseMessageFields` extracts per field of the request message
(`fieldInfo` in gin.go); tag parsing is pure per-field data extraction and
is carried here as given data. -/
structure FieldInfo where
  name : List Char
  goName : List Char
  goType : List Char
  jsonName : List Char
  tags : List (List Char × List Char)
  deriving DecidableEq, Repr

/-- The inputs `buildMethodDesc` reads from a `protogen.Method`. -/
structure MethodInput where
  goName : List Char
  originalName : List Char
  request : List Char
  reply : List Char
  inputFields : List FieldD
  fieldInfos : List FieldInfo

/-- `methodDesc` in gin.go. -/
structure MethodDesc where
  name : List Char
  originalName : List Char
  num : Nat
  request : List Char
  reply : List Char
  path : List Char
  method : List Char
  hasParams : Bool
  hasBody : Bool
  body : List Char
  responseBody : List Char
  clientPath : List Char
  pathParams : List (List Char)
  fields : List FieldInfo
  deriving DecidableEq, Repr

/-- The package-level map `methodSets` (method GoName → number of previous
`buildMethodDesc` calls with that name), threaded explicitly as state. -/
abbrev GenState := List (List Char × Nat)

def lookupCount (σ : GenState) (n : List Char) : Nat :=
  match σ.find? (fun p => p.1 == n) with
  | some p => p.2
  | none => 0

/-- The deferred `methodSets[m.GoName]++`. -/
def bumpCount (n : List Char) : GenState → GenState
  | [] => [(n, 1)]
  | (k, c) :: t => if k == n then (k, c + 1) :: t else (k, c) :: bumpCount n t

/-- The path rewrite `if s != nil { path = replacePath(v, *s, path) }` inside
the parameter loop of `buildMethodDesc`. -/
def applyDefault (v : List Char) (s : Option (List Char)) (path : List Char) : List Char :=
  match s with
  | some dv => replacePath v dv path
  | none => path

/-- The parameter loop of `buildMethodDesc`: apply the default-value rewrite
(`replacePath`) and walk each parameter's field path, accumulating warnings
and aborting with exit status 2 on a missing field. -/
def processParams (inputFields : List FieldD) :
    List (List Char × Option (List Char)) → List Char → Except Nat (List Warn × List Char)
  | [], path => Except.ok ([], path)
  | (v, s) :: rest, path =>
    match walkParam v inputFields (splitOnChar '.' v) with
    | Except.error e => Except.error e
    | Except.ok ws =>
      match processParams inputFields rest (applyDefault v s path) with
      | Except.error e => Except.error e
      | Except.ok pr => Except.ok (ws ++ pr.1, pr.2)

/-- `buildMethodDesc` in gin.go.  `Except.error 2` models `os.Exit(2)`; the
returned state is `methodSets` after the deferred increment, while `num` is
read before it.  (Go iterates the `params` map in unspecified order; the
embedding fixes first-occurrence order, on which the properties proved
below do not depend.) -/
def buildMethodDesc (σ : GenState) (m : MethodInput) (method path : List Char) :
    Except Nat (List Warn × MethodDesc × GenState) :=
  match processParams m.inputFields (buildPathParams path).2 path with
  | Except.error e => Except.error e
  | Except.ok pr =>
    Except.ok ((buildPathParams path).1 ++ pr.1,
      { name := m.goName
        originalName := m.originalName
        num := lookupCount σ m.goName
        request := m.request
        reply := m.reply
        path := transformPath pr.2
        method := method
        hasParams := 0 < (buildPathParams path).2.length
        hasBody := false
        body := []
        responseBody := []
        clientPath := pr.2
        pathParams := []
        fields := m.fieldInfos },
      bumpCount m.goName σ)

/-- The pattern oneof of `annotations.HttpRule`; `unset` models an absent
pattern, for which the Go switch leaves method and path empty. -/
inductive HttpPattern where
  | get (p : List Char)
  | put (p : List Char)
  | post (p : List Char)
  | delete (p : List Char)
  | patch (p : List Char)
  | custom (kind p : List Char)
  | unset

/-- `annotations.HttpRule`: pattern, body, response_body, additional_bindings. -/
inductive HttpRule where
  | mk (pattern : HttpPattern) (body responseBody : List Char)
       (additionalBindings : List HttpRule)

def HttpRule.pattern : HttpRule → HttpPattern
  | .mk p _ _ _ => p

def HttpRule.body : HttpRule → List Char
  | .mk _ b _ _ => b

def HttpRule.responseBody : HttpRule → List Char
  | .mk _ _ r _ => r

def HttpRule.additionalBindings : HttpRule → List HttpRule
  | .mk _ _ _ a => a

def patternPath : HttpPattern → List Char
  | .get p => p
  | .put p => p
  | .post p => p
  | .delete p => p
  | .patch p => p
  | .custom _ p => p
  | .unset => []

def patternMethod : HttpPattern → List Char
  | .get _ => "GET".toList
  | .put _ => "PUT".toList
  | .post _ => "POST".toList
  | .delete _ => "DELETE".toList
  | .patch _ => "PATCH".toList
  | .custom k _ => k
  | .unset => []

/-- The rule/method mismatch warnings of `buildHTTPRule`: GET or DELETE with
a declared body, or any other method without one. -/
def ruleWarnings (method path body : List Char) : List Warn :=
  if method = "GET".toList ∨ method = "DELETE".toList then
    if body ≠ [] then [Warn.bodyDeclared method path] else []
  else
    if body = [] then [Warn.bodyNotDeclared method path] else []

/-- The body-selector classification at the end of `buildHTTPRule`. -/
def classifyBodySel (md : MethodDesc) (body : List Char) : MethodDesc :=
  if body = ['*'] then { md with hasBody := true, body := [] }
  else if body ≠ [] then { md with hasBody := true, body := '.' :: camelCaseVars body }
  else { md with hasBody := false }

/-- The body / responseBody classification at the end of `buildHTTPRule`. -/
def classifyBody (md : MethodDesc) (body responseBody : List Char) : MethodDesc :=
  if responseBody = ['*'] then { classifyBodySel md body with responseBody := [] }
  else if responseBody ≠ [] then
    { classifyBodySel md body with responseBody := '.' :: camelCaseVars responseBody }
  else classifyBodySel md body

/-- `buildHTTPRule` in gin.go: select method and path from the pattern, build
the method descriptor, record the extracted path parameters, emit the
mismatch warnings, classify body and response body. -/
def buildHTTPRule (σ : GenState) (m : MethodInput) (r : HttpRule) :
    Except Nat (List Warn × MethodDesc × GenState) :=
  match buildMethodDesc σ m (patternMethod r.pattern) (patternPath r.pattern) with
  | Except.error e => Except.error e
  | Except.ok t =>
    Except.ok (t.1 ++ ruleWarnings (patternMethod r.pattern) (patternPath r.pattern) r.body,
      classifyBody { t.2.1 with pathParams := extractPathParams (patternPath r.pattern) }
        r.body r.responseBody,
      t.2.2)

/-- One RPC method as seen by the service loop of `genService`. -/
structure MethodEntry where
  input : MethodInput
  streamingClient : Bool
  streamingServer : Bool
  httpRule : Option HttpRule

/-- One service as seen by `genService`. -/
structure ServiceInput where
  goName : List Char
  fullName : List Char
  metadataPath : List Char
  deprecated : Bool
  methods : List MethodEntry

/-- Sequential `buildHTTPRule` calls over a list of rules, as performed by
the method loop of `genService` (additional bindings first, then the rule). -/
def buildRuleChain (m : MethodInput) : GenState → List HttpRule →
    Except Nat (List Warn × List MethodDesc × GenState)
  | σ, [] => Except.ok ([], [], σ)
  | σ, r :: rs =>
    match buildHTTPRule σ m r with
    | Except.error e => Except.error e
    | Except.ok t =>
      match buildRuleChain m t.2.2 rs with
      | Except.error e => Except.error e
      | Except.ok u => Except.ok (t.1 ++ u.1, t.2.1 :: u.2.1, u.2.2)

/-- The descriptors `genService` appends for one method: none when streaming;
one per additional binding then one for the rule when an HTTP rule is
present; a default POST route when absent and `omitempty` is off. -/
def genMethodDescs (omitempty : Bool) (svcFullName : List Char) (σ : GenState)
    (e : MethodEntry) : Except Nat (List Warn × List MethodDesc × GenState) :=
  if e.streamingClient || e.streamingServer then Except.ok ([], [], σ)
  else
    match e.httpRule with
    | some r => buildRuleChain e.input σ (r.additionalBindings ++ [r])
    | none =>
      if omitempty then Except.ok ([], [], σ)
      else
        match buildMethodDesc σ e.input ("POST".toList)
            ('/' :: svcFullName ++ '/' :: e.input.originalName) with
        | Except.error er => Except.error er
        | Except.ok t => Except.ok (t.1, [t.2.1], t.2.2)

/-- The method loop of `genService`, concatenating per-method descriptors. -/
def genServiceMethods (omitempty : Bool) (svcFullName : List Char) :
    GenState → List MethodEntry → Except Nat (List Warn × List MethodDesc × GenState)
  | σ, [] => Except.ok ([], [], σ)
  | σ, e :: es =>
    match genMethodDescs omitempty svcFullName σ e with
    | Except.error er => Except.error er
    | Except.ok t =>
      match genServiceMethods omitempty svcFullName t.2.2 es with
      | Except.error er => Except.error er
      | Except.ok u => Except.ok (t.1 ++ u.1, t.2.1 ++ u.2.1, u.2.2)

/-- `strings.ToLower` over ASCII (generated identifiers are ASCII). -/
def lowerStr (s : List Char) : List Char :=
  s.map (fun c => if 'A' ≤ c && c ≤ 'Z' then Char.ofNat (c.toNat + 32) else c)

/-- Decimal rendering of `Num` (the template action prints the int). -/
def natStr (n : Nat) : List Char := (Nat.repr n).toList

/-- Byte-lexicographic order on strings: Go's `<` on string map keys, which
text/template uses to sort keys when ranging over a map. -/
def lexLt : List Char → List Char → Bool
  | [], [] => false
  | [], _ :: _ => true
  | _ :: _, [] => false
  | a :: as1, b :: bs =>
    if a.toNat < b.toNat then true
    else if a.toNat = b.toNat then lexLt as1 bs
    else false

def insertSorted (x : List Char) : List (List Char) → List (List Char)
  | [] => [x]
  | y :: ys => if lexLt x y then x :: y :: ys else y :: insertSorted x ys

def sortKeys (l : List (List Char)) : List (List Char) := l.foldr insertSorted []

def dedupKeysAux : List (List Char) → List (List Char) → List (List Char)
  | [], _ => []
  | x :: xs, seen =>
    if seen.contains x then dedupKeysAux xs seen else x :: dedupKeysAux xs (x :: seen)

/-- `serviceDesc` in gin.go (the template data). -/
structure ServiceDesc where
  serviceType : List Char
  serviceName : List Char
  metadataPath : List Char
  methods : List MethodDesc

/-- The map `s.MethodSets` built by `execute` (keyed by `m.Name`, later
entries overwriting earlier ones), listed in the sorted key order in which
text/template ranges over a map. -/
def methodSetsOf (ms : List MethodDesc) : List MethodDesc :=
  (sortKeys (dedupKeysAux (ms.map (fun m => m.name)) [])).filterMap
    (fun k => ms.reverse.find? (fun m => m.name == k))

/-- A tag map in the sorted key order in which text/template ranges over it. -/
def sortedTags (tags : List (List Char × List Char)) : List (List Char × List Char) :=
  (sortKeys (dedupKeysAux (tags.map (fun t => t.1)) [])).filterMap
    (fun k => (tags.find? (fun t => t.1 == k)).map (fun t => (k, t.2)))

/-- The fixed tag ordering of `formatStructTags`. -/
def tagOrder : List (List Char) :=
  ["json".toList, "xml".toList, "yaml".toList, "toml".toList, "form".toList,
   "uri".toList, "header".toList, "protobuf".toList, "msgpack".toList,
   "multipart".toList, "binding".toList, "validate".toList]

/-- `formatStructTags` in gin.go: ordered known tags then remaining custom
tags, each rendered `key:"value"`, space-separated, wrapped in backquotes.
(Go iterates the remaining custom tags in unspecified map order; the
embedding uses the list's order.) -/
def formatStructTags (tags : List (List Char × List Char)) : List Char :=
  if tags.isEmpty then []
  else
    let parts := tagOrder.filterMap (fun k =>
        (tags.find? (fun t => t.1 == k)).map (fun t => k ++ ':' :: dquote :: t.2 ++ [dquote]))
      ++ (tags.filter (fun t => !(tagOrder.contains t.1))).map
          (fun t => t.1 ++ ':' :: dquote :: t.2 ++ [dquote])
    if parts.isEmpty then [] else btick :: List.intercalate [' '] parts ++ [btick]

/-- The operation-name string `/package.Service/Method`. -/
def opName (svrName orig : List Char) : List Char :=
  "/".toList ++ svrName ++ "/".toList ++ orig

/-- One rendered operation constant declaration of the server template. -/
def opConstLine (T N : List Char) (m : MethodDesc) : List Char :=
  "\nconst Operation".toList ++ T ++ m.originalName ++ " = \"".toList ++
    opName N m.originalName ++ "\"".toList

/-- One rendered interface method line of the server template. -/
def serverIfaceLine (m : MethodDesc) : List Char :=
  "\n\t".toList ++ m.name ++ "(context.Context, *".toList ++ m.request ++
    ") (*".toList ++ m.reply ++ ", error)".toList

/-- One rendered route registration of `Register<T>HTTPServer`. -/
def regLine (T : List Char) (m : MethodDesc) : List Char :=
  "\n\tr.".toList ++ m.method ++ "(\"".toList ++ m.path ++ "\", _".toList ++ T ++
    "_".toList ++ m.name ++ natStr m.num ++ "_HTTP_Handler(srv))".toList

/-- One rendered route registration of `Register<T>HTTPServerWithMiddleware`. -/
def regMwLine (T : List Char) (m : MethodDesc) : List Char :=
  "\n\tr.".toList ++ m.method ++ "(\"".toList ++ m.path ++
    "\", append(middlewares, _".toList ++ T ++ "_".toList ++ m.name ++ natStr m.num ++
    "_HTTP_Handler(srv))...)".toList

/-- The rendered map lookup keyed by the operation constant. -/
def opMwKey (T orig : List Char) : List Char :=
  "middlewares[Operation".toList ++ T ++ orig ++ "]".toList

/-- One rendered block of `Register<T>HTTPServerWithOperationMiddleware`
(grouped so the operation-keyed lookup is one chunk). -/
def regOpMwBlock (T : List Char) (m : MethodDesc) : List Char :=
  "\n\tif mws, exists := ".toList ++
  (opMwKey T m.originalName ++
  ("; exists \x7b\n\t\tr.".toList ++ m.method ++ "(\"".toList ++ m.path ++
    "\", append(mws, _".toList ++ T ++ "_".toList ++ m.name ++ natStr m.num ++
    "_HTTP_Handler(srv))...)\n\t\x7d else \x7b\n\t\tr.".toList ++ m.method ++
    "(\"".toList ++ m.path ++ "\", _".toList ++ T ++ "_".toList ++ m.name ++
    natStr m.num ++ "_HTTP_Handler(srv))\n\t\x7d".toList))

/-- The shared error-check tail of the handler's bind calls. -/
def errTail : List Char := "\n\t\t\tctx.Error(err)\n\t\t\treturn\n\t\t\x7d".toList

/-- The rendered query-bind block of the handler (the text after the inner
`if .Fields` keeps its trailing newline and tabs in the true branch only:
the template trims before `end` but not before `else`). -/
def bindQueryBlock (hasF : Bool) : List Char :=
  "\n\t\t// query\n\t\t".toList ++
  (if hasF then "if err := ctx.BindQuery(&ginReq); err != nil \x7b\n\t\t".toList
   else "if err := ctx.BindQuery(&in); err != nil \x7b".toList) ++ errTail

/-- One rendered tag comment line of the handler. -/
def fieldTagComment (f : FieldInfo) : List Char :=
  "\n\t\t// Field ".toList ++ f.goName ++ ": ".toList ++
    ((sortedTags f.tags).map (fun kv => kv.1 ++ ':' :: dquote :: kv.2 ++ [dquote, ' '])).flatten

/-- One rendered HTTP handler of the server template. -/
def handlerBlock (T : List Char) (m : MethodDesc) : List Char :=
  let hasF := !m.fields.isEmpty
  "\nfunc _".toList ++ T ++ "_".toList ++ m.name ++ natStr m.num ++
    "_HTTP_Handler(srv ".toList ++ T ++
    "HTTPServer) func(ctx *gin.Context) \x7b\n\treturn func(ctx *gin.Context) \x7b\n\t\t// Set operation for middleware\n\t\tctx.Set(\"operation\", Operation".toList ++
    T ++ m.originalName ++ ")\n\t\t\n\t\t".toList ++
  (if hasF then "var ginReq ".toList ++ lowerStr m.name ++ "GinRequest".toList
   else "var in ".toList ++ m.request) ++
  (if m.hasBody then
    "\n\t\t// body binding with automatic Content-Type detection\n\t\t".toList ++
    (if hasF then "if err := binding1.BindByContentType(ctx, &ginReq); err != nil \x7b\n\t\t".toList
     else "if err := binding1.BindByContentType(ctx, &in); err != nil \x7b".toList) ++
    errTail ++
    (if m.body ≠ [] then bindQueryBlock hasF else [])
   else bindQueryBlock hasF) ++
  (if m.hasParams then
    "\n\t\t// params\n\t\t".toList ++
    (if hasF then "if err := ctx.BindUri(&ginReq); err != nil \x7b\n\t\t".toList
     else "if err := ctx.BindUri(&in); err != nil \x7b".toList) ++ errTail
   else []) ++
  "\n\t\t".toList ++
  (if hasF then
    "\n\t\t// Convert gin request to protobuf request\n\t\tin := ginReq.to".toList ++ m.name ++
    "Request()\n\t\t\n\t\t// Custom field tags detected:\n\t\t".toList ++
    (m.fields.map fieldTagComment).flatten
   else []) ++
  "\n\t\t// header,ip等常用信息, form表单信息,包括上传文件\n\t\tnewCtx := metadata.NewContext(ctx)\n\t\t".toList ++
  (if hasF then "reply, err := srv.".toList ++ m.name ++ "(newCtx, in)".toList
   else "reply, err := srv.".toList ++ m.name ++ "(newCtx, &in)".toList) ++
  "\n\t\tif err != nil \x7b\n\t\t\tctx.Error(err)\n\t\t\treturn\n\t\t\x7d\n\t\tctx.JSON(200, reply".toList ++
  m.responseBody ++ ")\n\t\x7d\n\x7d\n".toList

/-- The server template of gin.go rendered on a `ServiceDesc` (text/template
semantics with its whitespace trim markers applied, derived section by
section from the template text). -/
def renderServer (s : ServiceDesc) : List Char :=
  "\n".toList ++
  (((methodSetsOf s.methods).map (opConstLine s.serviceType s.serviceName)).flatten ++
  (("\n\ntype ".toList ++ s.serviceType ++ "HTTPServer interface \x7b".toList) ++
  (((methodSetsOf s.methods).map serverIfaceLine).flatten ++
  (("\n\x7d\n\nfunc Register".toList ++ s.serviceType ++
      "HTTPServer(r gin.IRouter, srv ".toList ++ s.serviceType ++ "HTTPServer) \x7b".toList) ++
  ((s.methods.map (regLine s.serviceType)).flatten ++
  (("\n\x7d\n\nfunc Register".toList ++ s.serviceType ++
      "HTTPServerWithMiddleware(r gin.IRouter, srv ".toList ++ s.serviceType ++
      "HTTPServer, middlewares ...gin.HandlerFunc) \x7b".toList) ++
  ((s.methods.map (regMwLine s.serviceType)).flatten ++
  (("\n\x7d\n\nfunc Register".toList ++ s.serviceType ++
      "HTTPServerWithOperationMiddleware(r gin.IRouter, srv ".toList ++ s.serviceType ++
      "HTTPServer, middlewares map[string][]gin.HandlerFunc) \x7b".toList) ++
  ((s.methods.map (regOpMwBlock s.serviceType)).flatten ++
  ("\n\x7d\n\n".toList ++
  (s.methods.map (handlerBlock s.serviceType)).flatten))))))))))

/-- One rendered interface method line of the client template.  The template
line ends with a space before its newline, but the following `end` tag's
left-trim marker removes all of that trailing whitespace, so the rendered
line ends right after the closing parenthesis. -/
def clientIfaceLine (m : MethodDesc) : List Char :=
  "\n\t".toList ++ m.name ++ "(ctx context.Context, req *".toList ++ m.request ++
    ", opts ...client.CallOption) (rsp *".toList ++ m.reply ++ ", err error)".toList

/-- One rendered path-parameter replacement line of the client template. -/
def clientReplaceLine (p : List Char) : List Char :=
  "\n\tpath = strings.ReplaceAll(path, \"\x7b".toList ++ p ++
    "\x7d\", fmt.Sprintf(\"%v\", in.".toList ++ camelCase p ++ "))".toList

/-- One rendered client method of the client template. -/
def clientMethodBlock (T : List Char) (m : MethodDesc) : List Char :=
  "\nfunc (c *".toList ++ T ++ "HTTPClientImpl) ".toList ++ m.name ++
  "(ctx context.Context, in *".toList ++ m.request ++
  ", opts ...client.CallOption) (*".toList ++ m.reply ++ ", error) \x7b\n\tvar out ".toList ++
  m.reply ++ "\n\t\n\t// 构建请求路径\n\tpath := \"".toList ++ m.clientPath ++ "\"".toList ++
  (if m.hasParams then
    "\n\t// 替换路径参数".toList ++ (m.pathParams.map clientReplaceLine).flatten
   else []) ++
  (if m.method = "GET".toList then
    "\n\t// GET请求\n\terr := c.client.Invoke(ctx, \"".toList ++ m.method ++
    "\", path, nil, &out".toList ++ m.responseBody ++ ", opts...)".toList
   else
    "\n\t// ".toList ++ m.method ++ "请求\n\t".toList ++
    (if m.hasBody then
      "err := c.client.Invoke(ctx, \"".toList ++ m.method ++ "\", path, in".toList ++ m.body ++
      ", &out".toList ++ m.responseBody ++ ", opts...)\n\t".toList
     else
      "err := c.client.Invoke(ctx, \"".toList ++ m.method ++ "\", path, nil, &out".toList ++
      m.responseBody ++ ", opts...)\n\t".toList)) ++
  "\n\t\n\tif err != nil \x7b\n\t\treturn nil, fmt.Errorf(\"".toList ++ m.method ++
  " ".toList ++ m.clientPath ++ " failed: %w\", err)\n\t\x7d\n\treturn &out, nil\n\x7d\n".toList

/-- The client template of gin.go rendered on a `ServiceDesc`. -/
def renderClient (s : ServiceDesc) : List Char :=
  "\n\ntype ".toList ++ s.serviceType ++ "HTTPClient interface \x7b".toList ++
  ((methodSetsOf s.methods).map clientIfaceLine).flatten ++
  "\n\x7d\n\t\ntype ".toList ++ s.serviceType ++
  "HTTPClientImpl struct\x7b\n\tclient client.Client\n\x7d\n\t\nfunc New".toList ++
  s.serviceType ++ "HTTPClient(opts ...client.ClientOption) ".toList ++ s.serviceType ++
  "HTTPClient \x7b\n\tc := client.NewClient(opts...)\n\treturn &".toList ++ s.serviceType ++
  "HTTPClientImpl\x7bclient: c\x7d\n\x7d\n\n".toList ++
  ((methodSetsOf s.methods).map (clientMethodBlock s.serviceType)).flatten

/-- One rendered struct field line of the tagged-structs template. -/
def tagsFieldLine (f : FieldInfo) : List Char :=
  "\t".toList ++ f.goName ++ " ".toList ++ f.goType ++ " ".toList ++
    formatStructTags f.tags ++ "\n".toList

/-- One rendered conversion line (gin request to protobuf). -/
def tagsToLine (f : FieldInfo) : List Char :=
  "\t\t".toList ++ f.goName ++ ": r.".toList ++ f.goName ++ ",\n".toList

/-- One rendered conversion line (protobuf to gin request). -/
def tagsFromLine (f : FieldInfo) : List Char :=
  "\t\t".toList ++ f.goName ++ ": req.".toList ++ f.goName ++ ",\n".toList

/-- One rendered per-method block of the tagged-structs template. -/
def tagsBlock (m : MethodDesc) : List Char :=
  "\n".toList ++
  (if !m.fields.isEmpty then
    "\n// ".toList ++ lowerStr m.name ++ "GinRequest provides gin binding tags for ".toList ++
    m.request ++ "\ntype ".toList ++ lowerStr m.name ++ "GinRequest struct \x7b\n".toList ++
    (m.fields.map tagsFieldLine).flatten ++
    "\x7d\n\n// convert".toList ++ m.name ++
    "GinRequest converts from gin request struct to protobuf struct\nfunc (r *".toList ++
    lowerStr m.name ++ "GinRequest) to".toList ++ m.name ++ "Request() *".toList ++
    m.request ++ " \x7b\n\treturn &".toList ++ m.request ++ "\x7b\n".toList ++
    (m.fields.map tagsToLine).flatten ++
    "\t\x7d\n\x7d\n\n// from".toList ++ m.name ++
    "Request converts from protobuf struct to gin request struct  \nfunc from".toList ++
    m.name ++ "Request(req *".toList ++ m.request ++ ") *".toList ++ lowerStr m.name ++
    "GinRequest \x7b\n\treturn &".toList ++ lowerStr m.name ++ "GinRequest\x7b\n".toList ++
    (m.fields.map tagsFromLine).flatten ++
    "\t\x7d\n\x7d\n".toList
   else []) ++
  "\n".toList

/-- The tagged-structs template of gin.go rendered on a `ServiceDesc`. -/
def renderTags (s : ServiceDesc) : List Char :=
  "// Internal structs with gin binding tags for protobuf messages\n".toList ++
  ("\n".toList ++
  ((methodSetsOf s.methods).map tagsBlock).flatten)

/-- Carriage return or line feed (the cutset of the final `strings.Trim`). -/
def isRN (c : Char) : Bool := c == '\r' || c == '\n'

/-- `strings.Trim(s, "\r\n")`. -/
def trimRN (s : List Char) : List Char :=
  ((s.dropWhile isRN).reverse.dropWhile isRN).reverse

/-- `serviceDesc.execute` in gin.go: the three templates rendered in order,
joined by blank lines, with leading and trailing CR/LF trimmed. -/
def executeDesc (s : ServiceDesc) : List Char :=
  trimRN (renderServer s ++ "\n\n".toList ++ renderClient s ++ "\n\n".toList ++ renderTags s)

/-- The `ServiceDesc` that `genService` builds for a service. -/
def sdOf (svc : ServiceInput) (mds : List MethodDesc) : ServiceDesc :=
  { serviceType := svc.goName
    serviceName := svc.fullName
    metadataPath := svc.metadataPath
    methods := mds }

/-- `genService` in gin.go: run the method loop and, when at least one
descriptor was produced, emit `sd.execute()`.  (The deprecation comment is
printed through `g.P` separately and is not part of this text.) -/
def genService (omitempty : Bool) (σ : GenState) (svc : ServiceInput) :
    Except Nat (List Warn × Option (List Char) × GenState) :=
  match genServiceMethods omitempty svc.fullName σ svc.methods with
  | Except.error e => Except.error e
  | Except.ok t =>
    Except.ok (t.1, (if t.2.1.isEmpty then none else some (executeDesc (sdOf svc t.2.1))), t.2.2)

/-- The binder `BindByContentType` (binding/bind.go) dispatches to. -/
inductive Binder where
  | xml
  | yaml
  | toml
  | protobuf
  | msgpack
  | formMultipart
  | formUrlencoded
  | json
  deriving DecidableEq, Repr

/-- Go `strings.Contains`. -/
def strContains (s sub : List Char) : Bool :=
  match s with
  | [] => sub.isEmpty
  | _ :: t => sub.isPrefixOf s || strContains t sub

/-- The XML case condition of `BindByContentType`. -/
def ctXml (ct : List Char) : Bool :=
  strContains ct ("application/xml".toList) || strContains ct ("text/xml".toList)

/-- The YAML case condition of `BindByContentType`. -/
def ctYaml (ct : List Char) : Bool :=
  strContains ct ("application/x-yaml".toList) || strContains ct ("text/yaml".toList)

/-- The TOML case condition of `BindByContentType`. -/
def ctToml (ct : List Char) : Bool := strContains ct ("application/toml".toList)

/-- The ProtoBuf case condition of `BindByContentType`. -/
def ctProtobuf (ct : List Char) : Bool := strContains ct ("application/x-protobuf".toList)

/-- The MsgPack case condition of `BindByContentType`. -/
def ctMsgpack (ct : List Char) : Bool := strContains ct ("application/x-msgpack".toList)

/-- The multipart-form case condition of `BindByContentType`. -/
def ctMultipart (ct : List Char) : Bool := strContains ct ("multipart/form-data".toList)

/-- The URL-encoded-form case condition of `BindByContentType`. -/
def ctUrlencoded (ct : List Char) : Bool :=
  strContains ct ("application/x-www-form-urlencoded".toList)

/-- The Content-Type dispatch of `BindByContentType` in binding/bind.go,
case by case in source order. -/
def selectBinder (ct : List Char) : Binder :=
  if ctXml ct then .xml
  else if ctYaml ct then .yaml
  else if ctToml ct then .toml
  else if ctProtobuf ct then .protobuf
  else if ctMsgpack ct then .msgpack
  else if ctMultipart ct then .formMultipart
  else if ctUrlencoded ct then .formUrlencoded
  else .json

/-- `ctx.GetHeader("Content-Type")`: the header's value, or "" when absent. -/
def getHeader (headers : List (List Char × List Char)) (k : List Char) : List Char :=
  match headers.find? (fun h => h.1 == k) with
  | some h => h.2
  | none => []

/-- `BindByContentType` in binding/bind.go, as the binder it selects from the
request's Content-Type header. -/
def bindByContentType (headers : List (List Char × List Char)) : Binder :=
  selectBinder (getHeader headers ("Content-Type".toList))

/-- `metadata.GinData` (metadata/metadata.go); the `*http.Request` and
`http.ResponseWriter` are opaque handles, `gin.Params` a key/value list. -/
structure GinData where
  request : Nat
  params : List (List Char × List Char)
  writer : Nat
  deriving DecidableEq, Repr

/-- Keys of a `context.Context` value chain; `ginKey` models the private
`ginKey{}` type of metadata/metadata.go. -/
inductive CtxKey where
  | ginKey
  | other (n : Nat)
  deriving BEq, DecidableEq, Repr

/-- Values stored in a `context.Context` chain. -/
inductive CtxVal where
  | ginData (d : GinData)
  | other (n : Nat)
  deriving DecidableEq, Repr

/-- A gin context: its Request/Params/Writer fields and the value chain of
the `context.Context` it embeds. -/
structure GinContext where
  request : Nat
  params : List (List Char × List Char)
  writer : Nat
  values : List (CtxKey × CtxVal)

/-- `metadata.NewContext`: wrap the gin context with a `GinData` value under
`ginKey{}` (`context.WithValue`). -/
def NewContext (c : GinContext) : List (CtxKey × CtxVal) :=
  (CtxKey.ginKey,
    CtxVal.ginData { request := c.request, params := c.params, writer := c.writer }) :: c.values

/-- `ctx.Value(key)`: the innermost `WithValue` for the key wins. -/
def ctxValue (k : CtxKey) (ctx : List (CtxKey × CtxVal)) : Option CtxVal :=
  (ctx.find? (fun p => p.1 == k)).map (fun p => p.2)

/-- `metadata.FromContext`: the `ctx.Value` lookup with the `*GinData` type
assertion; `(none, false)` models a failed assertion. -/
def FromContext (ctx : List (CtxKey × CtxVal)) : Option GinData × Bool :=
  match ctxValue CtxKey.ginKey ctx with
  | some (CtxVal.ginData d) => (some d, true)
  | _ => (none, false)

/-- Decidable equality for `Except` results, componentwise. -/
instance instDecEqExcept {ε α : Type} [DecidableEq ε] [DecidableEq α] :
    DecidableEq (Except ε α) := fun a b =>
  match a, b with
  | Except.ok x, Except.ok y =>
    if h : x = y then isTrue (h ▸ rfl) else isFalse (fun hc => h (Except.ok.inj hc))
  | Except.error x, Except.error y =>
    if h : x = y then isTrue (h ▸ rfl) else isFalse (fun hc => h (Except.error.inj hc))
  | Except.ok _, Except.error _ => isFalse (fun hc => Except.noConfusion hc)
  | Except.error _, Except.ok _ => isFalse (fun hc => Except.noConfusion hc)

/-- A placeholder descriptor (only used for the error side of `getOk3`). -/
def dummyDesc : MethodDesc :=
  { name := [], originalName := [], num := 0, request := [], reply := [], path := []
    method := [], hasParams := false, hasBody := false, body := [], responseBody := []
    clientPath := [], pathParams := [], fields := [] }

/-- Projection of a successful `buildMethodDesc`/`buildHTTPRule` result,
used to state concrete evaluations. -/
def getOk3 (x : Except Nat (List Warn × MethodDesc × GenState)) :
    List Warn × MethodDesc × GenState :=
  match x with
  | Except.ok y => y
  | Except.error _ => ([], dummyDesc, [])

/-- Projection of a successful `genMethodDescs`/`genServiceMethods` result. -/
def getOkL (x : Except Nat (List Warn × List MethodDesc × GenState)) :
    List Warn × List MethodDesc × GenState :=
  match x with
  | Except.ok y => y
  | Except.error _ => ([], [], [])

/-- An example request message: `name` (string), `tags` (repeated string),
`attrs` (map), `parent` (message with a scalar child `id`). -/
def exFields : List FieldD :=
  [FieldD.mk ("name".toList) false false FKind.scalarK [],
   FieldD.mk ("tags".toList) false true FKind.scalarK [],
   FieldD.mk ("attrs".toList) true false FKind.messageK [],
   FieldD.mk ("parent".toList) false false FKind.messageK
     [FieldD.mk ("id".toList) false false FKind.scalarK []]]

/-- An example RPC method over `exFields`. -/
def exInput : MethodInput :=
  { goName := "GetUser".toList
    originalName := "GetUser".toList
    request := "GetUserRequest".toList
    reply := "GetUserReply".toList
    inputFields := exFields
    fieldInfos := [] }

/-- Example rule: GET with a `{name}` placeholder, one additional POST
binding with body `*`. -/
def exRule : HttpRule :=
  HttpRule.mk (HttpPattern.get ("/v1/users/\x7bname\x7d".toList)) [] []
    [HttpRule.mk (HttpPattern.post ("/v1/users".toList)) ("*".toList) [] []]

/-- Example rule: GET over a map-typed placeholder, with a declared body
(both a map warning and a mismatch warning fire). -/
def exRuleWarn : HttpRule :=
  HttpRule.mk (HttpPattern.get ("/v1/\x7battrs\x7d".toList)) ("name".toList) [] []

/-- Example rule: POST with body `*` and a named response body. -/
def exRuleBody : HttpRule :=
  HttpRule.mk (HttpPattern.post ("/v1/users".toList)) ("*".toList) ("name".toList) []

/-- Example method entry carrying `exRule`. -/
def exEntry : MethodEntry :=
  { input := exInput, streamingClient := false, streamingServer := false
    httpRule := some exRule }

/-- Example service carrying `exEntry`. -/
def exSvc : ServiceInput :=
  { goName := "Greeter".toList
    fullName := "helloworld.Greeter".toList
    metadataPath := "api/helloworld.proto".toList
    deprecated := false
    methods := [exEntry] }

/-- `buildHTTPRule` applied to the warning example (used by witnesses). -/
def c2run : Except Nat (List Warn × MethodDesc × GenState) :=
  buildHTTPRule [] exInput exRuleWarn

/-- The `buildMethodDesc` stage of the warning example (used by witnesses). -/
def c3bm : Except Nat (List Warn × MethodDesc × GenState) :=
  buildMethodDesc [] exInput (patternMethod exRuleWarn.pattern) (patternPath exRuleWarn.pattern)

/-- `buildHTTPRule` applied to the body example (used by witnesses). -/
def c4run : Except Nat (List Warn × MethodDesc × GenState) :=
  buildHTTPRule [] exInput exRuleBody

/-- `genMethodDescs` applied to the example entry (used by witnesses). -/
def c5run : Except Nat (List Warn × List MethodDesc × GenState) :=
  genMethodDescs true (exSvc.fullName) [] exEntry

/-- `genServiceMethods` applied to the example service (used by witnesses). -/
def c6run : Except Nat (List Warn × List MethodDesc × GenState) :=
  genServiceMethods true (exSvc.fullName) [] (exSvc.methods)

/-- First example run of `buildMethodDesc` on an empty `methodSets` state. -/
def c8run1 : Except Nat (List Warn × MethodDesc × GenState) :=
  buildMethodDesc [] exInput ("GET".toList) ("/v1/users".toList)

/-- Second example run of `buildMethodDesc`, on a state recording five
earlier calls for the same method GoName. -/
def c8run2 : Except Nat (List Warn × MethodDesc × GenState) :=
  buildMethodDesc [("GetUser".toList, 5)] exInput ("GET".toList) ("/v1/users".toList)

theorem infix_extend_left {x l : List Char} (a : List Char) (h : x <:+: l) :
    x <:+: a ++ l := by
  obtain ⟨s, t, rfl⟩ := h
  exact ⟨a ++ s, t, by simp [List.append_assoc]⟩

theorem infix_extend_right {x l : List Char} (b : List Char) (h : x <:+: l) :
    x <:+: l ++ b := by
  obtain ⟨s, t, rfl⟩ := h
  exact ⟨s, t ++ b, by simp [List.append_assoc]⟩

theorem dropWhile_append_sub {p : Char → Bool} {a : List Char} (b : List Char)
    (h : ∃ c ∈ a, p c = false) :
    (a ++ b).dropWhile p = a.dropWhile p ++ b := by
  induction a with
  | nil => simp at h
  | cons x xs ih =>
    by_cases hx : p x = true
    · obtain ⟨c, hc, hpc⟩ := h
      rcases List.mem_cons.mp hc with rfl | hc1
      · rw [hx] at hpc; cases hpc
      · simp only [List.cons_append, List.dropWhile_cons, hx, if_true]
        exact ih ⟨c, hc1, hpc⟩
    · simp [List.dropWhile_cons, hx]

theorem revDrop_append_sub {a b : List Char} (p : Char → Bool)
    (h : ∃ c ∈ b, p c = false) :
    ((a ++ b).reverse.dropWhile p).reverse = a ++ (b.reverse.dropWhile p).reverse := by
  have h2 : ∃ c ∈ b.reverse, p c = false := by
    obtain ⟨c, hc, hpc⟩ := h
    exact ⟨c, List.mem_reverse.mpr hc, hpc⟩
  rw [List.reverse_append, dropWhile_append_sub a.reverse h2, List.reverse_append,
    List.reverse_reverse]

/-- Decomposing the final `strings.Trim(..., "\r\n")` of `execute` when the
first and last rendered templates contain some non-CR/LF character. -/
theorem trimRN_decomp (S C T : List Char)
    (hS : ∃ c ∈ S, isRN c = false) (hT : ∃ c ∈ T, isRN c = false) :
    trimRN (S ++ "\n\n".toList ++ C ++ "\n\n".toList ++ T) =
      S.dropWhile isRN ++ "\n\n".toList ++ C ++ "\n\n".toList ++
        (T.reverse.dropWhile isRN).reverse := by
  unfold trimRN
  rw [show S ++ "\n\n".toList ++ C ++ "\n\n".toList ++ T =
      S ++ ("\n\n".toList ++ C ++ "\n\n".toList ++ T) by simp [List.append_assoc]]
  rw [dropWhile_append_sub _ hS]
  rw [show S.dropWhile isRN ++ ("\n\n".toList ++ C ++ "\n\n".toList ++ T) =
      (S.dropWhile isRN ++ "\n\n".toList ++ C ++ "\n\n".toList) ++ T by
    simp [List.append_assoc]]
  rw [revDrop_append_sub isRN hT]

theorem walkParam_error_eq_two (v : List Char) :
    ∀ (cs : List (List Char)) (fs : List FieldD) (e : Nat),
      walkParam v fs cs = Except.error e → e = 2 := by
  intro cs
  induction cs with
  | nil => intro fs e h; simp [walkParam] at h
  | cons f rest ih =>
    intro fs e h
    rw [walkParam] at h
    by_cases ht : trimSpace f = []
    · rw [if_pos ht] at h
      exact ih fs e h
    · rw [if_neg ht] at h
      cases hfd : fs.find? (fun fd => fd.name == colonStrip f) with
      | none =>
        simp only [hfd, Except.error.injEq] at h
        omega
      | some fd =>
        simp only [hfd] at h
        by_cases hm : fd.isMap = true
        · rw [if_pos hm] at h
          cases hw : walkParam v fs rest with
          | error e1 =>
            rw [hw] at h
            simp only [Except.map, Except.error.injEq] at h
            have := ih fs e1 hw
            omega
          | ok w => rw [hw] at h; simp [Except.map] at h
        · rw [if_neg hm] at h
          by_cases hl : fd.isList = true
          · rw [if_pos hl] at h
            cases hw : walkParam v fs rest with
            | error e1 =>
              rw [hw] at h
              simp only [Except.map, Except.error.injEq] at h
              have := ih fs e1 hw
              omega
            | ok w => rw [hw] at h; simp [Except.map] at h
          · rw [if_neg hl] at h
            by_cases hk : fd.kind = FKind.messageK ∨ fd.kind = FKind.groupK
            · rw [if_pos hk] at h
              exact ih _ e h
            · rw [if_neg hk] at h
              exact ih fs e h

theorem processParams_error_iff (fs : List FieldD) :
    ∀ (ps : List (List Char × Option (List Char))) (path : List Char),
      (processParams fs ps path = Except.error 2 ↔
        ∃ p ∈ ps, walkParam p.1 fs (splitOnChar '.' p.1) = Except.error 2) := by
  intro ps
  induction ps with
  | nil => intro path; simp [processParams]
  | cons q rest ih =>
    intro path
    obtain ⟨v, s⟩ := q
    rw [processParams]
    constructor
    · intro h
      cases hw : walkParam v fs (splitOnChar '.' v) with
      | error e =>
        have he := walkParam_error_eq_two v (splitOnChar '.' v) fs e hw
        subst he
        exact ⟨(v, s), List.mem_cons_self _ _, hw⟩
      | ok w0 =>
        simp only [hw] at h
        cases hrec : processParams fs rest (applyDefault v s path) with
        | error e =>
          simp only [hrec, Except.error.injEq] at h
          subst h
          obtain ⟨p, hp, hpe⟩ := (ih (applyDefault v s path)).mp hrec
          exact ⟨p, List.mem_cons_of_mem _ hp, hpe⟩
        | ok pr => simp [hrec] at h
    · rintro ⟨p, hp, hpe⟩
      rcases List.mem_cons.mp hp with rfl | hp1
      · simp only [hpe]
      · cases hw : walkParam v fs (splitOnChar '.' v) with
        | error e =>
          have he := walkParam_error_eq_two v (splitOnChar '.' v) fs e hw
          subst he
          simp only [hw]
        | ok w =>
          have hrec := (ih (applyDefault v s path)).mpr ⟨p, hp1, hpe⟩
          simp only [hw, hrec]

theorem processParams_ok_sub (fs : List FieldD) :
    ∀ (ps : List (List Char × Option (List Char))) (path : List Char)
      (ws : List Warn) (p1 : List Char),
      processParams fs ps path = Except.ok (ws, p1) →
      ∀ p ∈ ps, ∀ w, walkParam p.1 fs (splitOnChar '.' p.1) = Except.ok w → w ⊆ ws := by
  intro ps
  induction ps with
  | nil => intro path ws p1 h p hp; simp at hp
  | cons q rest ih =>
    intro path ws p1 h p hp w hw
    obtain ⟨v, s⟩ := q
    rw [processParams] at h
    cases hw0 : walkParam v fs (splitOnChar '.' v) with
    | error e => simp [hw0] at h
    | ok w0 =>
      simp only [hw0] at h
      cases hrec : processParams fs rest (applyDefault v s path) with
      | error e => simp [hrec] at h
      | ok pr =>
        simp only [hrec, Except.ok.injEq, Prod.mk.injEq] at h
        obtain ⟨hws, hp1e⟩ := h
        rcases List.mem_cons.mp hp with rfl | hp1m
        · rw [hw0] at hw
          injection hw with hww
          subst hww
          rw [← hws]
          exact List.subset_append_left _ _
        · rw [← hws]
          exact (ih _ pr.1 pr.2 hrec p hp1m w hw).trans (List.subset_append_right _ _)

theorem buildRuleChain_spec (m : MethodInput) :
    ∀ (rs : List HttpRule) (σ : GenState) (ws : List Warn)
      (mds : List MethodDesc) (σ2 : GenState),
      buildRuleChain m σ rs = Except.ok (ws, mds, σ2) →
      mds.length = rs.length
      ∧ ∀ i, i < rs.length →
          ∃ σi wi σi1 b d, rs[i]? = some b ∧ mds[i]? = some d ∧
            buildHTTPRule σi m b = Except.ok (wi, d, σi1) := by
  intro rs
  induction rs with
  | nil =>
    intro σ ws mds σ2 h
    rw [buildRuleChain] at h
    simp only [Except.ok.injEq, Prod.mk.injEq] at h
    obtain ⟨hws, hmds, hσ⟩ := h
    subst hmds
    exact ⟨rfl, fun i hi => absurd hi (by simp)⟩
  | cons r rest ih =>
    intro σ ws mds σ2 h
    rw [buildRuleChain] at h
    cases htr : buildHTTPRule σ m r with
    | error e => simp [htr] at h
    | ok t =>
      simp only [htr] at h
      cases htr2 : buildRuleChain m t.2.2 rest with
      | error e => simp [htr2] at h
      | ok u =>
        simp only [htr2, Except.ok.injEq, Prod.mk.injEq] at h
        obtain ⟨hws, hmds, hσ⟩ := h
        obtain ⟨hlen, hpt⟩ := ih t.2.2 u.1 u.2.1 u.2.2 (by rw [htr2])
        constructor
        · rw [← hmds]
          simp [hlen]
        · intro i hi
          cases i with
          | zero =>
            refine ⟨σ, t.1, t.2.2, r, t.2.1, by simp, ?_, by rw [htr]⟩
            rw [← hmds]
            simp
          | succ j =>
            have hj : j < rest.length := by simpa using hi
            obtain ⟨σi, wi, σi1, b, d, hb, hd, hcall⟩ := hpt j hj
            refine ⟨σi, wi, σi1, b, d, by simpa using hb, ?_, hcall⟩
            rw [← hmds]
            simpa using hd

/-- C1 (counterexample): the claim says `transformPath` leaves every segment
that is not a `{field}` placeholder unchanged, but the source also rewrites
segments whose first character is ':', dropping their last character: on the
path "/:ab" the code yields "/:a" while the claimed behaviour yields "/:ab". -/
theorem c1_counterexample :
    transformPath ("/:ab".toList) = ("/:a".toList)
    ∧ claimTransformPath ("/:ab".toList) = ("/:ab".toList)
    ∧ transformPath ("/:ab".toList) ≠ claimTransformPath ("/:ab".toList) := by
  refine ⟨by decide, by decide, by decide⟩

/-- C1 (amended): `transformPath` rewrites each slash-separated segment that
is a `{field}` placeholder into `:field`, rewrites each segment whose first
character is ':' into ':' followed by the segment stripped of its first and
last characters, and leaves every other segment unchanged. -/
theorem c1_transform_path (path : List Char) :
    transformPath path =
      List.intercalate ['/'] ((splitOnChar '/' path).map (fun p =>
        match p with
        | [] => ([] : List Char)
        | a :: rest =>
          if a = lbrace ∧ (a :: rest).getLastD ' ' = rbrace then ':' :: rest.dropLast
          else if a = ':' then ':' :: rest.dropLast
          else a :: rest)) := by
  have hf : transformSeg = (fun p : List Char =>
      match p with
      | [] => ([] : List Char)
      | a :: rest =>
        if a = lbrace ∧ (a :: rest).getLastD ' ' = rbrace then ':' :: rest.dropLast
        else if a = ':' then ':' :: rest.dropLast
        else a :: rest) := by
    funext p
    cases p with
    | nil => rfl
    | cons a rest =>
      show (if (a = lbrace ∧ (a :: rest).getLastD ' ' = rbrace) ∨ a = ':' then
          ':' :: rest.dropLast else a :: rest) =
        (if a = lbrace ∧ (a :: rest).getLastD ' ' = rbrace then ':' :: rest.dropLast
         else if a = ':' then ':' :: rest.dropLast else a :: rest)
      by_cases h1 : a = lbrace ∧ (a :: rest).getLastD ' ' = rbrace
      · rw [if_pos (Or.inl h1), if_pos h1]
      · by_cases h2 : a = ':'
        · rw [if_pos (Or.inr h2), if_neg h1, if_pos h2]
        · have hn : ¬((a = lbrace ∧ (a :: rest).getLastD ' ' = rbrace) ∨ a = ':') := by
            tauto
          rw [if_neg hn, if_neg h1, if_neg h2]
  rw [transformPath, hf]

/-- C9: `FromContext` applied to the context built by `NewContext` returns
`ok = true` and a `GinData` whose Request, Params and Writer are exactly
those of the original gin context. -/
theorem c9_metadata_roundtrip (c : GinContext) :
    FromContext (NewContext c) =
      (some { request := c.request, params := c.params, writer := c.writer }, true) := rfl

/-- C10: `BindByContentType` reads the Content-Type header (empty when the
header is absent) and selects exactly one binder by substring containment
tested in the fixed source order XML, YAML, TOML, ProtoBuf, MsgPack,
multipart form, URL-encoded form; any value containing none of the
recognized substrings — the empty string included — falls back to JSON. -/
theorem c10_bind_by_content_type :
    (∀ hs : List (List Char × List Char),
      bindByContentType hs = selectBinder (getHeader hs ("Content-Type".toList)))
    ∧ selectBinder [] = Binder.json
    ∧ ∀ ct : List Char,
      (selectBinder ct = Binder.xml ↔ ctXml ct = true)
      ∧ (selectBinder ct = Binder.yaml ↔ (ctXml ct = false ∧ ctYaml ct = true))
      ∧ (selectBinder ct = Binder.toml ↔
          (ctXml ct = false ∧ ctYaml ct = false ∧ ctToml ct = true))
      ∧ (selectBinder ct = Binder.protobuf ↔
          (ctXml ct = false ∧ ctYaml ct = false ∧ ctToml ct = false ∧ ctProtobuf ct = true))
      ∧ (selectBinder ct = Binder.msgpack ↔
          (ctXml ct = false ∧ ctYaml ct = false ∧ ctToml ct = false ∧ ctProtobuf ct = false
           ∧ ctMsgpack ct = true))
      ∧ (selectBinder ct = Binder.formMultipart ↔
          (ctXml ct = false ∧ ctYaml ct = false ∧ ctToml ct = false ∧ ctProtobuf ct = false
           ∧ ctMsgpack ct = false ∧ ctMultipart ct = true))
      ∧ (selectBinder ct = Binder.formUrlencoded ↔
          (ctXml ct = false ∧ ctYaml ct = false ∧ ctToml ct = false ∧ ctProtobuf ct = false
           ∧ ctMsgpack ct = false ∧ ctMultipart ct = false ∧ ctUrlencoded ct = true))
      ∧ (selectBinder ct = Binder.json ↔
          (ctXml ct = false ∧ ctYaml ct = false ∧ ctToml ct = false ∧ ctProtobuf ct = false
           ∧ ctMsgpack ct = false ∧ ctMultipart ct = false ∧ ctUrlencoded ct = false)) := by
  refine ⟨fun hs => rfl, by decide, fun ct => ?_⟩
  refine ⟨?_, ?_, ?_, ?_, ?_, ?_, ?_, ?_⟩ <;>
    · simp only [selectBinder]
      split_ifs <;> simp_all

/-- C2: `buildHTTPRule` aborts with exit status 2 (an ERROR on stderr)
exactly when some placeholder of the URL template names a field path that
cannot be found in the request message; when every placeholder resolves, a
method descriptor is returned and the map/list warnings of each placeholder
walk, as well as any rule/method mismatch warning, are merely collected in
the returned warning list (printed to stderr, processing continues). -/
theorem c2_error_handling (σ : GenState) (m : MethodInput) (r : HttpRule) :
    (buildHTTPRule σ m r = Except.error 2 ↔
      ∃ p ∈ (buildPathParams (patternPath r.pattern)).2,
        walkParam p.1 m.inputFields (splitOnChar '.' p.1) = Except.error 2)
    ∧ (∀ ws md σ1, buildHTTPRule σ m r = Except.ok (ws, md, σ1) →
        (∀ p ∈ (buildPathParams (patternPath r.pattern)).2, ∀ w,
          walkParam p.1 m.inputFields (splitOnChar '.' p.1) = Except.ok w → w ⊆ ws)
        ∧ ruleWarnings (patternMethod r.pattern) (patternPath r.pattern) r.body ⊆ ws) := by
  have hbm : buildMethodDesc σ m (patternMethod r.pattern) (patternPath r.pattern) =
        Except.error 2 ↔
      processParams m.inputFields (buildPathParams (patternPath r.pattern)).2
        (patternPath r.pattern) = Except.error 2 := by
    rw [buildMethodDesc]
    cases hp : processParams m.inputFields (buildPathParams (patternPath r.pattern)).2
        (patternPath r.pattern) with
    | error e => simp [hp]
    | ok pr => simp [hp]
  have hbr : buildHTTPRule σ m r = Except.error 2 ↔
      buildMethodDesc σ m (patternMethod r.pattern) (patternPath r.pattern) =
        Except.error 2 := by
    rw [buildHTTPRule]
    cases hb : buildMethodDesc σ m (patternMethod r.pattern) (patternPath r.pattern) with
    | error e => simp [hb]
    | ok t => simp [hb]
  constructor
  · rw [hbr, hbm]
    exact processParams_error_iff m.inputFields _ _
  · intro ws md σ1 h
    rw [buildHTTPRule] at h
    cases hb : buildMethodDesc σ m (patternMethod r.pattern) (patternPath r.pattern) with
    | error e => simp [hb] at h
    | ok t =>
      simp only [hb, Except.ok.injEq, Prod.mk.injEq] at h
      obtain ⟨hws, hmd, hσ⟩ := h
      rw [buildMethodDesc] at hb
      cases hp : processParams m.inputFields (buildPathParams (patternPath r.pattern)).2
          (patternPath r.pattern) with
      | error e => simp [hp] at hb
      | ok pr =>
        simp only [hp, Except.ok.injEq] at hb
        constructor
        · intro p hpmem w hw x hx
          have hsub := processParams_ok_sub m.inputFields
            (buildPathParams (patternPath r.pattern)).2 (patternPath r.pattern)
            pr.1 pr.2 (by rw [hp]) p hpmem w hw
          rw [← hws]
          apply List.mem_append_left
          rw [← hb]
          exact List.mem_append_right _ (hsub hx)
        · rw [← hws]
          exact List.subset_append_right _ _

/-- C2 (witness): on the GET rule over the map-typed placeholder `attrs`,
the generator continues and the map warning is among the returned warnings. -/
theorem c2_error_handling_witness :
    c2run = Except.ok ((getOk3 c2run).1, (getOk3 c2run).2.1, (getOk3 c2run).2.2)
    ∧ ("attrs".toList, (none : Option (List Char))) ∈
        (buildPathParams (patternPath exRuleWarn.pattern)).2
    ∧ walkParam ("attrs".toList) exInput.inputFields (splitOnChar '.' ("attrs".toList)) =
        Except.ok [Warn.fieldIsMap ("attrs".toList)]
    ∧ [Warn.fieldIsMap ("attrs".toList)] ⊆ (getOk3 c2run).1 := by
  refine ⟨by decide, by decide, by decide, ?_⟩
  exact ((c2_error_handling [] exInput exRuleWarn).2 (getOk3 c2run).1 (getOk3 c2run).2.1
    (getOk3 c2run).2.2 (by decide)).1 (("attrs".toList), none) (by decide)
    [Warn.fieldIsMap ("attrs".toList)] (by decide)

/-- C3: `buildHTTPRule` emits its rule/method mismatch warning exactly when
the method is GET or DELETE and a body is declared, or the method is neither
and no body is declared; in both cases the descriptor is still produced by
the very same construction as in the non-warning case. -/
theorem c3_rule_method_mismatch (σ : GenState) (m : MethodInput) (r : HttpRule)
    (w : List Warn) (md0 : MethodDesc) (σ1 : GenState)
    (h : buildMethodDesc σ m (patternMethod r.pattern) (patternPath r.pattern) =
      Except.ok (w, md0, σ1)) :
    buildHTTPRule σ m r = Except.ok
      (w ++ ruleWarnings (patternMethod r.pattern) (patternPath r.pattern) r.body,
       classifyBody { md0 with pathParams := extractPathParams (patternPath r.pattern) }
         r.body r.responseBody, σ1)
    ∧ (ruleWarnings (patternMethod r.pattern) (patternPath r.pattern) r.body ≠ [] ↔
        (((patternMethod r.pattern = "GET".toList ∨ patternMethod r.pattern = "DELETE".toList)
            ∧ r.body ≠ [])
          ∨ (¬(patternMethod r.pattern = "GET".toList
                ∨ patternMethod r.pattern = "DELETE".toList)
            ∧ r.body = []))) := by
  constructor
  · rw [buildHTTPRule, h]
  · rw [ruleWarnings]
    by_cases h1 : patternMethod r.pattern = "GET".toList
        ∨ patternMethod r.pattern = "DELETE".toList
    · rw [if_pos h1]
      by_cases h2 : r.body = []
      · rw [if_neg (not_not_intro h2)]
        refine iff_of_false (by simp) (fun hc => ?_)
        rcases hc with ⟨_, hb⟩ | ⟨hn, _⟩
        · exact hb h2
        · exact hn h1
      · rw [if_pos h2]
        exact iff_of_true (by simp) (Or.inl ⟨h1, h2⟩)
    · rw [if_neg h1]
      by_cases h2 : r.body = []
      · rw [if_pos h2]
        exact iff_of_true (by simp) (Or.inr ⟨h1, h2⟩)
      · rw [if_neg h2]
        refine iff_of_false (by simp) (fun hc => ?_)
        rcases hc with ⟨ha, _⟩ | ⟨_, hb⟩
        · exact h1 ha
        · exact h2 hb

/-- C3 (witness): the GET-with-body example does produce the warning. -/
theorem c3_rule_method_mismatch_witness :
    c3bm = Except.ok ((getOk3 c3bm).1, (getOk3 c3bm).2.1, (getOk3 c3bm).2.2)
    ∧ ruleWarnings (patternMethod exRuleWarn.pattern) (patternPath exRuleWarn.pattern)
        exRuleWarn.body ≠ [] := by
  refine ⟨by decide, ?_⟩
  exact ((c3_rule_method_mismatch [] exInput exRuleWarn (getOk3 c3bm).1 (getOk3 c3bm).2.1
    (getOk3 c3bm).2.2 (by decide)).2).mpr (by decide)

/-- C4: the body selector classification: body `*` gives HasBody with empty
Body; any other non-empty body gives HasBody with Body `.` + camel-cased
path; an empty body gives no HasBody; and analogously for the response
body selector. -/
theorem c4_body_classification (σ : GenState) (m : MethodInput) (r : HttpRule)
    (ws : List Warn) (md : MethodDesc) (σ1 : GenState)
    (h : buildHTTPRule σ m r = Except.ok (ws, md, σ1)) :
    (r.body = ['*'] → md.hasBody = true ∧ md.body = [])
    ∧ (r.body ≠ [] → r.body ≠ ['*'] →
        md.hasBody = true ∧ md.body = '.' :: camelCaseVars r.body)
    ∧ (r.body = [] → md.hasBody = false)
    ∧ (r.responseBody = ['*'] → md.responseBody = [])
    ∧ (r.responseBody ≠ [] → r.responseBody ≠ ['*'] →
        md.responseBody = '.' :: camelCaseVars r.responseBody) := by
  rw [buildHTTPRule] at h
  cases hb : buildMethodDesc σ m (patternMethod r.pattern) (patternPath r.pattern) with
  | error e => simp [hb] at h
  | ok t =>
    simp only [hb, Except.ok.injEq, Prod.mk.injEq] at h
    obtain ⟨hws, hmd, hσ⟩ := h
    subst hmd
    refine ⟨?_, ?_, ?_, ?_, ?_⟩
    · intro h1
      simp only [classifyBody]
      split_ifs <;> simp [classifyBodySel, h1]
    · intro h1 h2
      simp only [classifyBody]
      split_ifs <;> simp [classifyBodySel, h1, h2]
    · intro h1
      simp only [classifyBody]
      split_ifs <;> simp [classifyBodySel, h1]
    · intro h1
      simp [classifyBody, h1]
    · intro h1 h2
      simp [classifyBody, h1, h2]

/-- C4 (witness): the POST rule with body `*` and response body `name`. -/
theorem c4_body_classification_witness :
    c4run = Except.ok ((getOk3 c4run).1, (getOk3 c4run).2.1, (getOk3 c4run).2.2)
    ∧ ((getOk3 c4run).2.1.hasBody = true ∧ (getOk3 c4run).2.1.body = [])
    ∧ (getOk3 c4run).2.1.responseBody = '.' :: camelCaseVars ("name".toList) := by
  refine ⟨by decide, ?_, ?_⟩
  · exact (c4_body_classification [] exInput exRuleBody (getOk3 c4run).1 (getOk3 c4run).2.1
      (getOk3 c4run).2.2 (by decide)).1 (by decide)
  · exact (c4_body_classification [] exInput exRuleBody (getOk3 c4run).1 (getOk3 c4run).2.1
      (getOk3 c4run).2.2 (by decide)).2.2.2.2 (by decide) (by decide)

/-- C5: for a non-streaming method with an HTTP rule carrying N additional
bindings, the service loop appends exactly N + 1 descriptors — one per
additional binding, in order, followed by one for the top-level rule. -/
theorem c5_additional_bindings (o : Bool) (fn : List Char) (σ : GenState)
    (e : MethodEntry) (r : HttpRule) (ws : List Warn) (mds : List MethodDesc)
    (σ1 : GenState)
    (hsc : e.streamingClient = false) (hss : e.streamingServer = false)
    (hr : e.httpRule = some r)
    (h : genMethodDescs o fn σ e = Except.ok (ws, mds, σ1)) :
    mds.length = r.additionalBindings.length + 1
    ∧ (∀ i, i < r.additionalBindings.length →
        ∃ σi wi σi1 b d, r.additionalBindings[i]? = some b ∧ mds[i]? = some d ∧
          buildHTTPRule σi e.input b = Except.ok (wi, d, σi1))
    ∧ (∃ σl wl σl1 d, mds[r.additionalBindings.length]? = some d ∧
        buildHTTPRule σl e.input r = Except.ok (wl, d, σl1)) := by
  have h1 : buildRuleChain e.input σ (r.additionalBindings ++ [r]) =
      Except.ok (ws, mds, σ1) := by
    simpa [genMethodDescs, hsc, hss, hr] using h
  obtain ⟨hlen, hpt⟩ := buildRuleChain_spec e.input (r.additionalBindings ++ [r])
    σ ws mds σ1 h1
  refine ⟨by simpa using hlen, ?_, ?_⟩
  · intro i hi
    obtain ⟨σi, wi, σi1, b, d, hb, hd, hcall⟩ := hpt i (by simp; omega)
    refine ⟨σi, wi, σi1, b, d, ?_, hd, hcall⟩
    rw [← hb, List.getElem?_append_left hi]
  · obtain ⟨σi, wi, σi1, b, d, hb, hd, hcall⟩ :=
      hpt r.additionalBindings.length (by simp)
    rw [List.getElem?_append_right (le_refl _)] at hb
    simp at hb
    subst hb
    exact ⟨σi, wi, σi1, d, hd, hcall⟩

/-- C5 (witness): the example rule has one additional binding and yields
two descriptors. -/
theorem c5_additional_bindings_witness :
    c5run = Except.ok ((getOkL c5run).1, (getOkL c5run).2.1, (getOkL c5run).2.2)
    ∧ (getOkL c5run).2.1.length = exRule.additionalBindings.length + 1 := by
  refine ⟨by decide, ?_⟩
  exact (c5_additional_bindings true (exSvc.fullName) [] exEntry exRule (getOkL c5run).1
    (getOkL c5run).2.1 (getOkL c5run).2.2 rfl rfl rfl (by decide)).1

/-- C6: the generated operation constant for each method of the method set
declares exactly the string `/` + service full name + `/` + original method
name, and the operation-middleware registration function indexes its map by
that same constant. -/
theorem c6_operation_name (o : Bool) (σ : GenState) (svc : ServiceInput)
    (ws : List Warn) (mds : List MethodDesc) (σ1 : GenState)
    (h : genServiceMethods o svc.fullName σ svc.methods = Except.ok (ws, mds, σ1)) :
    (∀ m ∈ methodSetsOf mds,
      ("\nconst Operation".toList ++ svc.goName ++ m.originalName ++ " = \"".toList ++
        opName svc.fullName m.originalName ++ "\"".toList)
        <:+: renderServer (sdOf svc mds))
    ∧ (∀ m ∈ mds,
      ("middlewares[Operation".toList ++ svc.goName ++ m.originalName ++ "]".toList)
        <:+: renderServer (sdOf svc mds)) := by
  constructor
  · intro m hm
    have h1 : opConstLine svc.goName svc.fullName m ∈
        (methodSetsOf mds).map (opConstLine svc.goName svc.fullName) :=
      List.mem_map_of_mem _ hm
    have h2 := List.infix_of_mem_flatten h1
    have h3 : ((methodSetsOf mds).map (opConstLine svc.goName svc.fullName)).flatten
        <:+: renderServer (sdOf svc mds) := by
      simp only [renderServer, sdOf]
      apply infix_extend_left
      apply infix_extend_right
      exact List.infix_rfl
    exact h2.trans h3
  · intro m hm
    have h1 : regOpMwBlock svc.goName m ∈ mds.map (regOpMwBlock svc.goName) :=
      List.mem_map_of_mem _ hm
    have h2 := List.infix_of_mem_flatten h1
    have h0 : ("middlewares[Operation".toList ++ svc.goName ++ m.originalName ++ "]".toList)
        <:+: regOpMwBlock svc.goName m := by
      rw [regOpMwBlock]
      apply infix_extend_left
      apply infix_extend_right
      exact List.infix_rfl
    have h3 : (mds.map (regOpMwBlock svc.goName)).flatten <:+: renderServer (sdOf svc mds) := by
      simp only [renderServer, sdOf]
      apply infix_extend_left
      apply infix_extend_left
      apply infix_extend_left
      apply infix_extend_left
      apply infix_extend_left
      apply infix_extend_left
      apply infix_extend_left
      apply infix_extend_left
      apply infix_extend_left
      apply infix_extend_right
      exact List.infix_rfl
    exact h0.trans (h2.trans h3)

/-- C6 (witness): the example service's method-set descriptor. -/
theorem c6_operation_name_witness :
    c6run = Except.ok ((getOkL c6run).1, (getOkL c6run).2.1, (getOkL c6run).2.2)
    ∧ (methodSetsOf (getOkL c6run).2.1).headD dummyDesc ∈ methodSetsOf (getOkL c6run).2.1
    ∧ ("\nconst Operation".toList ++ exSvc.goName ++
        ((methodSetsOf (getOkL c6run).2.1).headD dummyDesc).originalName ++ " = \"".toList ++
        opName exSvc.fullName
          ((methodSetsOf (getOkL c6run).2.1).headD dummyDesc).originalName ++
        "\"".toList)
        <:+: renderServer (sdOf exSvc (getOkL c6run).2.1) := by
  refine ⟨by decide, by decide, ?_⟩
  exact (c6_operation_name true [] exSvc (getOkL c6run).1 (getOkL c6run).2.1
    (getOkL c6run).2.2 (by decide)).1 _ (by decide)

/-- C7: for a service with at least one method descriptor, `genService`
emits exactly the three rendered templates in order — server, client,
tagged structs — separated by blank lines (the outer trim only strips
leading/trailing CR/LF of the first and last templates). -/
theorem c7_three_templates (o : Bool) (σ : GenState) (svc : ServiceInput)
    (ws : List Warn) (mds : List MethodDesc) (σ1 : GenState)
    (h : genServiceMethods o svc.fullName σ svc.methods = Except.ok (ws, mds, σ1))
    (hne : mds ≠ []) :
    genService o σ svc = Except.ok (ws,
      some ((renderServer (sdOf svc mds)).dropWhile isRN ++ "\n\n".toList ++
        renderClient (sdOf svc mds) ++ "\n\n".toList ++
        ((renderTags (sdOf svc mds)).reverse.dropWhile isRN).reverse), σ1) := by
  have hS : ∃ c ∈ renderServer (sdOf svc mds), isRN c = false := by
    refine ⟨'t', ?_, by decide⟩
    rw [renderServer]
    refine List.mem_append_right _ ?_
    refine List.mem_append_right _ ?_
    refine List.mem_append_left _ ?_
    refine List.mem_append_left _ ?_
    refine List.mem_append_left _ ?_
    decide
  have hT : ∃ c ∈ renderTags (sdOf svc mds), isRN c = false := by
    refine ⟨'/', ?_, by decide⟩
    rw [renderTags]
    refine List.mem_append_left _ ?_
    decide
  have hie : mds.isEmpty = false := by
    cases mds with
    | nil => exact absurd rfl hne
    | cons a l => rfl
  have hexec : executeDesc (sdOf svc mds) =
      (renderServer (sdOf svc mds)).dropWhile isRN ++ "\n\n".toList ++
        renderClient (sdOf svc mds) ++ "\n\n".toList ++
        ((renderTags (sdOf svc mds)).reverse.dropWhile isRN).reverse := by
    rw [executeDesc]
    exact trimRN_decomp _ _ _ hS hT
  rw [genService, h]
  simp [hie, hexec]

/-- C7 (witness): the example service's emitted text decomposes into the
three rendered templates. -/
theorem c7_three_templates_witness :
    c6run = Except.ok ((getOkL c6run).1, (getOkL c6run).2.1, (getOkL c6run).2.2)
    ∧ (getOkL c6run).2.1 ≠ []
    ∧ genService true [] exSvc = Except.ok ((getOkL c6run).1,
        some ((renderServer (sdOf exSvc (getOkL c6run).2.1)).dropWhile isRN ++
          "\n\n".toList ++ renderClient (sdOf exSvc (getOkL c6run).2.1) ++
          "\n\n".toList ++
          ((renderTags (sdOf exSvc (getOkL c6run).2.1)).reverse.dropWhile isRN).reverse),
        (getOkL c6run).2.2) := by
  refine ⟨by decide, by decide, ?_⟩
  exact c7_three_templates true [] exSvc (getOkL c6run).1 (getOkL c6run).2.1
    (getOkL c6run).2.2 (by decide) (by decide)

/-- C8 (counterexample): the claim says the descriptor, including Num, is a
function of method, verb and path alone; but `methodSets` is package-level
mutable state, so running the very same method, verb and path again yields
Num = 1 instead of 0 and a different descriptor. -/
theorem c8_counterexample :
    (getOk3 c8run1).2.1.num = 0
    ∧ (getOk3 (buildMethodDesc (getOk3 c8run1).2.2 exInput ("GET".toList)
        ("/v1/users".toList))).2.1.num = 1
    ∧ (getOk3 c8run1).2.1 ≠ (getOk3 (buildMethodDesc (getOk3 c8run1).2.2 exInput
        ("GET".toList) ("/v1/users".toList))).2.1 := by
  refine ⟨by decide, by decide, by decide⟩

/-- C8 (amended): `buildMethodDesc` is deterministic given the `methodSets`
counter: warnings and every descriptor field except Num depend only on the
method, verb and path, while Num equals the counter recorded for the
method's GoName in the state — which persists across services and files. -/
theorem c8_num_statefulness (σ1 σ2 : GenState) (m : MethodInput) (method path : List Char)
    (w1 w2 : List Warn) (d1 d2 : MethodDesc) (t1 t2 : GenState)
    (h1 : buildMethodDesc σ1 m method path = Except.ok (w1, d1, t1))
    (h2 : buildMethodDesc σ2 m method path = Except.ok (w2, d2, t2)) :
    w1 = w2
    ∧ d1.num = lookupCount σ1 m.goName
    ∧ d2.num = lookupCount σ2 m.goName
    ∧ { d1 with num := 0 } = { d2 with num := 0 }
    ∧ t1 = bumpCount m.goName σ1 ∧ t2 = bumpCount m.goName σ2 := by
  rw [buildMethodDesc] at h1 h2
  cases hp : processParams m.inputFields (buildPathParams path).2 path with
  | error e =>
    simp [hp] at h1
  | ok pr =>
    simp only [hp, Except.ok.injEq, Prod.mk.injEq] at h1 h2
    obtain ⟨hw1, hd1, ht1⟩ := h1
    obtain ⟨hw2, hd2, ht2⟩ := h2
    subst hw1
    subst hw2
    subst hd1
    subst hd2
    subst ht1
    subst ht2
    exact ⟨rfl, rfl, rfl, rfl, rfl, rfl⟩

/-- C8 (amended, witness): the two example runs differ only in Num, which
follows the counter. -/
theorem c8_num_statefulness_witness :
    c8run1 = Except.ok ((getOk3 c8run1).1, (getOk3 c8run1).2.1, (getOk3 c8run1).2.2)
    ∧ c8run2 = Except.ok ((getOk3 c8run2).1, (getOk3 c8run2).2.1, (getOk3 c8run2).2.2)
    ∧ (getOk3 c8run1).2.1.num = lookupCount [] ("GetUser".toList)
    ∧ (getOk3 c8run2).2.1.num = lookupCount [("GetUser".toList, 5)] ("GetUser".toList)
    ∧ { (getOk3 c8run1).2.1 with num := 0 } = { (getOk3 c8run2).2.1 with num := 0 } := by
  have hmain := c8_num_statefulness [] [("GetUser".toList, 5)] exInput ("GET".toList)
    ("/v1/users".toList) (getOk3 c8run1).1 (getOk3 c8run2).1 (getOk3 c8run1).2.1
    (getOk3 c8run2).2.1 (getOk3 c8run1).2.2 (getOk3 c8run2).2.2 (by decide) (by decide)
  exact ⟨by decide, by decide, hmain.2.1, hmain.2.2.1, hmain.2.2.2.1⟩

end Ginpb
